import Mathlib

/-!
Verification of the retrieval-and-ranking engine of the MLAI-Stack backend.

The embedded code is `src/backend-fastapi/main_complete.py` (functions
`cosine_similarity`, `find_relevant_chunks`, and the corpus-loading part of
`load_models`) and `src/backend-fastapi/app_for_hf_space.py` (function
`retrieve_context`).

Modelling conventions:
* Python floats are idealized as exact real numbers; vector components are
  rationals.  A cosine similarity `dot(a,b) / (norm(a) * norm(b))` is the real
  number `num / sqrt(densq)` with `num = dot a b` and
  `densq = dot a a * dot b b`; it is represented exactly by the structure
  `Score`.  The rational `Score.sKey = num * abs num / densq` is an
  order-isomorphic image of that real value (the map `x -> x * abs x` is
  strictly monotone), which makes comparisons and sorting executable; the
  bridge lemmas `Score.sKey_le_sKey_iff` and `Score.geQb_eq_true_iff` relate
  the executable order to the `Real.sqrt` semantics.
* IEEE behaviour at a zero denominator: when `densq = 0` the numerator is also
  zero (a zero self-dot-product forces the vector to be zero), so the float
  division yields NaN.  A `Score` with `densq = 0` therefore stands for NaN;
  every `>=` comparison against it is false (`Score.geQb`), as in IEEE.
* Python dictionaries with possibly missing keys become structures with
  `Option` fields; a key access is `getKey`, which fails (KeyError) on a
  missing field.  `numpy.dot` on 1-D arrays of different lengths raises, so
  `cosine_similarity` is `Except`-valued.  The `try/except` of
  `find_relevant_chunks` maps any internal error to the empty list.
* The module-level globals `embedding_model` and `workspace_embeddings`
  become explicit parameters; the embedding model is an `Option` of a pure
  encoding function (the spec requires the collaborator to be deterministic).
* `list.sort(key=..., reverse=True)` in Python is a stable descending sort;
  it is embedded as `List.mergeSort` with the comparator `pairLe`, which
  orders by non-increasing sort key and keeps ties in input order.
-/

/-- A corpus record as parsed from `workspace_embeddings.json`: a JSON object
in which any of the five documented keys may be missing. -/
structure Doc where
  id : Option String
  filePath : Option String
  chunkIndex : Option Int
  content : Option String
  embedding : Option (List ℚ)
  deriving DecidableEq, Repr

/-- Exact representation of the float produced by `cosine_similarity`:
the real value `num / Real.sqrt densq`.  `densq = 0` stands for NaN. -/
structure Score where
  num : ℚ
  densq : ℚ
  deriving DecidableEq, Repr

/-- Embeds the `DocumentChunk` pydantic model of `main_complete.py`. -/
structure Chunk where
  id : String
  filePath : String
  chunkIndex : Int
  content : String
  similarity_score : Score
  deriving DecidableEq, Repr

/-- Embeds the context entries returned by `retrieve_context` in
`app_for_hf_space.py`. -/
structure CtxEntry where
  filePath : String
  chunkIndex : Int
  content : String
  score : Score
  deriving DecidableEq, Repr

/-- `numpy.dot` on two 1-D arrays of equal length. -/
def dotQ (a b : List ℚ) : ℚ :=
  (List.zipWith (fun x y => x * y) a b).sum

/-- Embeds `cosine_similarity` of `main_complete.py`:
`np.dot(a, b) / (np.linalg.norm(a) * np.linalg.norm(b))`.
`np.dot` raises `ValueError` when the lengths differ (`Except.error`);
otherwise the float result is `dot a b / sqrt (dot a a * dot b b)`,
represented exactly by a `Score`.  There is no zero-norm guard in the
source: a zero denominator is passed through to the division. -/
def cosine_similarity (a b : List ℚ) : Except Unit Score :=
  if a.length = b.length then
    Except.ok { num := dotQ a b, densq := dotQ a a * dotQ b b }
  else
    Except.error ()

/-- The semantic real value of a score: `num / sqrt densq`. -/
noncomputable def Score.toReal (s : Score) : ℝ :=
  (s.num : ℝ) / Real.sqrt (s.densq : ℝ)

/-- The score produced by the float division is NaN exactly when the
denominator is zero (the numerator is then forced to zero as well). -/
def Score.isNaN (s : Score) : Bool :=
  s.densq == 0

/-- Executable, order-isomorphic rational image of `Score.toReal`:
`x / sqrt d` and `x * abs x / d` are related by the strictly monotone map
`x -> x * abs x` whenever `d > 0`. -/
def Score.sKey (s : Score) : ℚ :=
  s.num * |s.num| / s.densq

/-- Embeds the Python comparison `similarity >= threshold` on floats:
false when the similarity is NaN (zero denominator), otherwise the real
comparison, carried out on the order-isomorphic rational keys. -/
def Score.geQb (s : Score) (t : ℚ) : Bool :=
  !(s.densq == 0) && decide (t * |t| ≤ s.sKey)

/-- Embeds the guard of the similarity loop in `find_relevant_chunks`
(membership test for the key `embedding` followed by its truthiness):
the key exists and the list is non-empty. -/
def hasTruthyEmbedding (d : Doc) : Bool :=
  match d.embedding with
  | some e => !e.isEmpty
  | none => false

/-- A Python dictionary key access: raises KeyError when the key is absent. -/
def getKey {α : Type} (o : Option α) : Except Unit α :=
  match o with
  | some a => Except.ok a
  | none => Except.error ()

/-- Embeds the similarity loop of `find_relevant_chunks`: for every document
whose `embedding` key is present and truthy, compute the cosine similarity
(possibly raising) and keep the pair when `similarity >= threshold`. -/
def computeSims (qe : List ℚ) (t : ℚ) : List Doc → Except Unit (List (Doc × Score))
  | [] => Except.ok []
  | d :: rest =>
    if hasTruthyEmbedding d then
      (cosine_similarity qe (d.embedding.getD [])).bind fun s =>
        (computeSims qe t rest).map fun tail =>
          if s.geQb t then (d, s) :: tail else tail
    else
      computeSims qe t rest

/-- Comparator for the stable descending sort of the similarity list
(Python sort keyed on the similarity value with reverse set):
`a` may come before `b` when the key of `b` is at most the key of `a`. -/
def pairLe (a b : Doc × Score) : Bool :=
  decide (b.2.sKey ≤ a.2.sKey)

/-- The sorted similarity list: the Python stable sort, descending. -/
def rankPairs (sims : List (Doc × Score)) : List (Doc × Score) :=
  sims.mergeSort pairLe

/-- Embeds the construction of one `DocumentChunk` from a scored document:
each of the four metadata key accesses can raise KeyError. -/
def buildChunk (p : Doc × Score) : Except Unit Chunk :=
  (getKey p.1.id).bind fun i =>
    (getKey p.1.filePath).bind fun f =>
      (getKey p.1.chunkIndex).bind fun ci =>
        (getKey p.1.content).map fun ct =>
          { id := i, filePath := f, chunkIndex := ci, content := ct,
            similarity_score := p.2 }

/-- Sequential effectful loop over a list: the first raised exception
aborts the whole computation (Python loop semantics). -/
def exList {α β : Type} (f : α → Except Unit β) : List α → Except Unit (List β)
  | [] => Except.ok []
  | a :: as =>
    (f a).bind fun b => (exList f as).map fun bs => b :: bs

/-- The body of the `try:` block of `find_relevant_chunks`, starting after
the query has been encoded to `qe`: score and filter the corpus, sort
descending, truncate to `max_chunks`, and build the output chunks. -/
def tryBody (qe : List ℚ) (ws : List Doc) (max_chunks : ℕ) (t : ℚ) :
    Except Unit (List Chunk) :=
  (computeSims qe t ws).bind fun sims =>
    exList buildChunk ((rankPairs sims).take max_chunks)

/-- Embeds `find_relevant_chunks` of `main_complete.py`.  The globals
`embedding_model` and `workspace_embeddings` are passed explicitly; the
guard `if not embedding_model or not workspace_embeddings: return []` comes
first, and the `except Exception: return []` clause maps every internal
error to the empty list. -/
def find_relevant_chunks (embedding_model : Option (String → List ℚ))
    (workspace_embeddings : List Doc) (query : String)
    (max_chunks : ℕ) (threshold : ℚ) : List Chunk :=
  match embedding_model with
  | none => []
  | some enc =>
    if workspace_embeddings.isEmpty then []
    else
      match tryBody (enc query) workspace_embeddings max_chunks threshold with
      | Except.ok l => l
      | Except.error _ => []

/-- Embeds the corpus-loading part of `load_models` in `main_complete.py`.
The parse result of `workspace_embeddings.json` is `none` when the file is
missing or `json.load` raises (both handled paths assign `[]`), and
`some records` on success; the records are stored unchanged — the source
performs no per-record validation of fields or dimensionalities. -/
def load_workspace_embeddings (parsed : Option (List Doc)) : List Doc :=
  match parsed with
  | some l => l
  | none => []

/-- The cosine score of a query against one stored embedding, as used by
`retrieve_context`: `util.cos_sim` against `util.normalize_embeddings` of the
corpus row computes the same cosine value `dot / (norm * norm)`. -/
def cosScore (qe e : List ℚ) : Score :=
  { num := dotQ qe e, densq := dotQ qe qe * dotQ e e }

/-- Embeds the construction of one context dictionary in `retrieve_context`:
the three metadata key accesses can raise KeyError (not caught there). -/
def buildCtx (p : Doc × Score) : Except Unit CtxEntry :=
  (getKey p.1.filePath).bind fun f =>
    (getKey p.1.chunkIndex).bind fun ci =>
      (getKey p.1.content).map fun ct =>
        { filePath := f, chunkIndex := ci, content := ct, score := p.2 }

/-- Embeds `retrieve_context` of `app_for_hf_space.py`.  After the guard,
the `embedding` key of every document is read (KeyError propagates),
`torch.tensor` requires a rectangular matrix, `util.cos_sim` requires the
query dimensionality to match, and `torch.topk` with
`k = min(top_k, len(workspace_embeddings))` selects the `min(top_k, n)`
highest scores — there is no similarity threshold.  `torch.topk` returns
scores in descending order; its order among exactly tied scores is not
documented, and is modelled here as the stable descending order. -/
def retrieve_context (embedding_model : Option (String → List ℚ))
    (workspace_embeddings : List Doc) (query : String) (top_k : ℕ) :
    Except Unit (List CtxEntry) :=
  match embedding_model with
  | none => Except.ok []
  | some enc =>
    if workspace_embeddings.isEmpty then Except.ok []
    else
      (exList (fun d => getKey d.embedding) workspace_embeddings).bind
        fun embs =>
          let dim := (embs.headD []).length
          if embs.all (fun e => e.length = dim) then
            let qe := enc query
            if qe.length = dim then
              let scored := workspace_embeddings.zip
                (embs.map fun e => cosScore qe e)
              let top := (scored.mergeSort pairLe).take
                (min top_k workspace_embeddings.length)
              exList buildCtx top
            else Except.error ()
          else Except.error ()

/-! ### Bridge between the executable rational order and the real semantics -/

/-- The map `x -> x * abs x` on the reals is strictly monotone. -/
lemma mul_abs_strictMono : StrictMono (fun x : ℝ => x * |x|) := by
  intro a b hab
  simp only
  rcases le_or_lt 0 a with ha | ha
  · rw [abs_of_nonneg ha, abs_of_nonneg (le_of_lt (lt_of_le_of_lt ha hab))]
    nlinarith
  · rcases le_or_lt 0 b with hb | hb
    · rw [abs_of_neg ha, abs_of_nonneg hb]
      nlinarith
    · rw [abs_of_neg ha, abs_of_neg hb]
      nlinarith

/-- Comparison of reals through the strictly monotone map `x -> x * abs x`. -/
lemma mul_abs_le_mul_abs_iff (a b : ℝ) : a * |a| ≤ b * |b| ↔ a ≤ b :=
  mul_abs_strictMono.le_iff_le

/-- The rational sort key, cast to the reals, is the image of the semantic
score value under `x -> x * abs x` (for a non-negative denominator). -/
lemma Score.sKey_cast (s : Score) (h : 0 ≤ s.densq) :
    ((s.sKey : ℚ) : ℝ) = s.toReal * |s.toReal| := by
  rcases eq_or_lt_of_le h with h0 | hpos
  · have hd : s.densq = 0 := h0.symm
    simp [Score.sKey, Score.toReal, hd]
  · have hdR : (0 : ℝ) < (s.densq : ℝ) := by exact_mod_cast hpos
    have hsq : Real.sqrt (s.densq : ℝ) * Real.sqrt (s.densq : ℝ) = (s.densq : ℝ) :=
      Real.mul_self_sqrt (le_of_lt hdR)
    have habs : |(s.num : ℝ) / Real.sqrt (s.densq : ℝ)|
        = |(s.num : ℝ)| / Real.sqrt (s.densq : ℝ) := by
      rw [abs_div, abs_of_nonneg (Real.sqrt_nonneg _)]
    rw [Score.sKey, Score.toReal, habs]
    push_cast
    rw [div_mul_div_comm, hsq]

/-- Comparing two sort keys is comparing the semantic score values. -/
lemma Score.sKey_le_sKey_iff (s t : Score)
    (hs : 0 ≤ s.densq) (ht : 0 ≤ t.densq) :
    s.sKey ≤ t.sKey ↔ s.toReal ≤ t.toReal := by
  constructor
  · intro h
    have hR : ((s.sKey : ℚ) : ℝ) ≤ ((t.sKey : ℚ) : ℝ) := by exact_mod_cast h
    rw [Score.sKey_cast s hs, Score.sKey_cast t ht] at hR
    exact (mul_abs_le_mul_abs_iff _ _).mp hR
  · intro h
    have hR : s.toReal * |s.toReal| ≤ t.toReal * |t.toReal| :=
      (mul_abs_le_mul_abs_iff _ _).mpr h
    rw [← Score.sKey_cast s hs, ← Score.sKey_cast t ht] at hR
    exact_mod_cast hR

/-- The executable threshold test agrees with the real comparison:
it succeeds exactly when the score is not NaN and the semantic value is at
least the threshold. -/
lemma Score.geQb_eq_true_iff (s : Score) (t : ℚ) (h : 0 ≤ s.densq) :
    s.geQb t = true ↔ (s.densq ≠ 0 ∧ (t : ℝ) ≤ s.toReal) := by
  unfold Score.geQb
  rw [Bool.and_eq_true, Bool.not_eq_true', beq_eq_false_iff_ne, decide_eq_true_eq]
  constructor
  · rintro ⟨hne, hle⟩
    refine ⟨hne, ?_⟩
    have hR : (((t * |t| : ℚ)) : ℝ) ≤ ((s.sKey : ℚ) : ℝ) := by exact_mod_cast hle
    rw [Score.sKey_cast s h] at hR
    have hR' : (t : ℝ) * |(t : ℝ)| ≤ s.toReal * |s.toReal| := by
      push_cast at hR
      exact hR
    exact (mul_abs_le_mul_abs_iff _ _).mp hR'
  · rintro ⟨hne, hle⟩
    refine ⟨hne, ?_⟩
    have hR : (t : ℝ) * |(t : ℝ)| ≤ s.toReal * |s.toReal| :=
      (mul_abs_le_mul_abs_iff _ _).mpr hle
    rw [← Score.sKey_cast s h] at hR
    have hR' : (((t * |t| : ℚ)) : ℝ) ≤ ((s.sKey : ℚ) : ℝ) := by
      push_cast
      exact hR
    exact_mod_cast hR'

/-- A self dot product is a sum of squares, hence non-negative. -/
lemma dotQ_self_nonneg (a : List ℚ) : 0 ≤ dotQ a a := by
  unfold dotQ
  induction a with
  | nil => simp
  | cons x xs ih =>
    simp only [List.zipWith_cons_cons, List.sum_cons]
    nlinarith [mul_self_nonneg x]

/-- The denominator produced by `cosine_similarity` is non-negative. -/
lemma cosScore_densq_nonneg (qe e : List ℚ) : 0 ≤ (cosScore qe e).densq :=
  mul_nonneg (dotQ_self_nonneg qe) (dotQ_self_nonneg e)

/-! ### Inversion lemmas for the embedded pipeline -/

/-- On equal lengths, `cosine_similarity` returns the exact cosine score. -/
lemma cosine_similarity_ok {a b : List ℚ} (h : a.length = b.length) :
    cosine_similarity a b = Except.ok (cosScore a b) := by
  simp [cosine_similarity, cosScore, h]

/-- `cosine_similarity` succeeds only on equal lengths, with the exact
cosine score. -/
lemma cosine_similarity_ok_inv {a b : List ℚ} {s : Score}
    (h : cosine_similarity a b = Except.ok s) :
    a.length = b.length ∧ s = cosScore a b := by
  by_cases hl : a.length = b.length
  · rw [cosine_similarity_ok hl] at h
    exact ⟨hl, (Except.ok.injEq _ _).mp h.symm⟩
  · simp [cosine_similarity, hl] at h

/-- The similarity loop succeeds when every truthy embedding matches the
query dimensionality. -/
lemma computeSims_isOk (qe : List ℚ) (t : ℚ) :
    ∀ ws : List Doc,
      (∀ d ∈ ws, hasTruthyEmbedding d = true →
        (d.embedding.getD []).length = qe.length) →
      ∃ sims, computeSims qe t ws = Except.ok sims := by
  intro ws
  induction ws with
  | nil => intro _; exact ⟨[], rfl⟩
  | cons d rest ih =>
    intro h
    obtain ⟨tail, htail⟩ := ih (fun d' hd' => h d' (List.mem_cons_of_mem _ hd'))
    by_cases ht : hasTruthyEmbedding d = true
    · have hlen : qe.length = (d.embedding.getD []).length :=
        (h d (List.mem_cons_self _ _) ht).symm
      refine ⟨if (cosScore qe (d.embedding.getD [])).geQb t then
        (d, cosScore qe (d.embedding.getD [])) :: tail else tail, ?_⟩
      simp [computeSims, ht, cosine_similarity_ok hlen, htail, Except.bind,
        Except.map]
    · exact ⟨tail, by rw [computeSims, if_neg ht]; exact htail⟩

/-- The similarity loop never returns more pairs than there are records. -/
lemma computeSims_length (qe : List ℚ) (t : ℚ) :
    ∀ (ws : List Doc) (sims : List (Doc × Score)),
      computeSims qe t ws = Except.ok sims → sims.length ≤ ws.length := by
  intro ws
  induction ws with
  | nil =>
    intro sims h
    simp [computeSims] at h
    simp [← h]
  | cons d rest ih =>
    intro sims h
    by_cases ht : hasTruthyEmbedding d = true
    · rw [computeSims, if_pos ht] at h
      cases hc : cosine_similarity qe (d.embedding.getD []) with
      | error e => rw [hc] at h; simp [Except.bind] at h
      | ok s =>
        rw [hc] at h
        simp only [Except.bind] at h
        cases htl : computeSims qe t rest with
        | error e => rw [htl] at h; simp [Except.map] at h
        | ok tail =>
          rw [htl] at h
          simp only [Except.map, Except.ok.injEq] at h
          have hlen := ih tail htl
          by_cases hg : s.geQb t = true
          · rw [if_pos hg] at h
            rw [← h]
            simpa using Nat.succ_le_succ hlen
          · rw [if_neg hg] at h
            rw [← h]
            simp
            omega
    · rw [computeSims, if_neg ht] at h
      have hlen := ih sims h
      simp
      omega

/-- Every pair returned by the similarity loop comes from a record of the
corpus with a truthy embedding, carries the exact cosine score of that
record, and passed the threshold test. -/
lemma computeSims_mem_spec (qe : List ℚ) (t : ℚ) :
    ∀ (ws : List Doc) (sims : List (Doc × Score)),
      computeSims qe t ws = Except.ok sims →
      ∀ p ∈ sims, p.1 ∈ ws ∧ hasTruthyEmbedding p.1 = true ∧
        p.2 = cosScore qe (p.1.embedding.getD []) ∧ p.2.geQb t = true := by
  intro ws
  induction ws with
  | nil =>
    intro sims h p hp
    simp [computeSims] at h
    rw [h] at hp
    simp at hp
  | cons d rest ih =>
    intro sims h p hp
    by_cases ht : hasTruthyEmbedding d = true
    · rw [computeSims, if_pos ht] at h
      cases hc : cosine_similarity qe (d.embedding.getD []) with
      | error e => rw [hc] at h; simp [Except.bind] at h
      | ok s =>
        rw [hc] at h
        simp only [Except.bind] at h
        cases htl : computeSims qe t rest with
        | error e => rw [htl] at h; simp [Except.map] at h
        | ok tail =>
          rw [htl] at h
          simp only [Except.map, Except.ok.injEq] at h
          have hs := (cosine_similarity_ok_inv hc).2
          by_cases hg : s.geQb t = true
          · rw [if_pos hg] at h
            rw [← h] at hp
            rcases List.mem_cons.mp hp with hpd | hptail
            · rw [hpd]
              exact ⟨List.mem_cons_self _ _, ht, hs, hg⟩
            · obtain ⟨h1, h2, h3, h4⟩ := ih tail htl p hptail
              exact ⟨List.mem_cons_of_mem _ h1, h2, h3, h4⟩
          · rw [if_neg hg] at h
            rw [← h] at hp
            obtain ⟨h1, h2, h3, h4⟩ := ih tail htl p hp
            exact ⟨List.mem_cons_of_mem _ h1, h2, h3, h4⟩
    · rw [computeSims, if_neg ht] at h
      obtain ⟨h1, h2, h3, h4⟩ := ih sims h p hp
      exact ⟨List.mem_cons_of_mem _ h1, h2, h3, h4⟩

/-- A successful `exList` run is the pointwise success of its elements. -/
lemma exList_ok_forall₂ {α β : Type} {f : α → Except Unit β} :
    ∀ {l : List α} {r : List β}, exList f l = Except.ok r →
      List.Forall₂ (fun a b => f a = Except.ok b) l r := by
  intro l
  induction l with
  | nil =>
    intro r h
    simp [exList] at h
    rw [h]
    exact List.Forall₂.nil
  | cons a as ih =>
    intro r h
    rw [exList] at h
    cases hf : f a with
    | error e => rw [hf] at h; simp [Except.bind] at h
    | ok b =>
      rw [hf] at h
      simp only [Except.bind] at h
      cases htl : exList f as with
      | error e => rw [htl] at h; simp [Except.map] at h
      | ok bs =>
        rw [htl] at h
        simp only [Except.map, Except.ok.injEq] at h
        rw [← h]
        exact List.Forall₂.cons hf (ih htl)

/-- `exList` succeeds when every element succeeds. -/
lemma exList_isOk {α β : Type} {f : α → Except Unit β} :
    ∀ {l : List α}, (∀ a ∈ l, ∃ b, f a = Except.ok b) →
      ∃ r, exList f l = Except.ok r := by
  intro l
  induction l with
  | nil => intro _; exact ⟨[], rfl⟩
  | cons a as ih =>
    intro h
    obtain ⟨b, hb⟩ := h a (List.mem_cons_self _ _)
    obtain ⟨bs, hbs⟩ := ih (fun a' ha' => h a' (List.mem_cons_of_mem _ ha'))
    exact ⟨b :: bs, by rw [exList, hb, hbs]; rfl⟩

/-- All four metadata keys of a record are present. -/
def docHasMeta (d : Doc) : Bool :=
  d.id.isSome && d.filePath.isSome && d.chunkIndex.isSome && d.content.isSome

/-- `buildChunk` succeeds exactly on records with all metadata keys. -/
lemma buildChunk_isOk {p : Doc × Score} (h : docHasMeta p.1 = true) :
    ∃ c, buildChunk p = Except.ok c := by
  obtain ⟨⟨⟨h1, h2⟩, h3⟩, h4⟩ := by simpa [docHasMeta, Bool.and_eq_true] using h
  obtain ⟨i, hi⟩ := Option.isSome_iff_exists.mp h1
  obtain ⟨f, hf⟩ := Option.isSome_iff_exists.mp h2
  obtain ⟨ci, hci⟩ := Option.isSome_iff_exists.mp h3
  obtain ⟨ct, hct⟩ := Option.isSome_iff_exists.mp h4
  exact ⟨_, by rw [buildChunk, hi, hf, hci, hct]; rfl⟩

/-- A chunk built by `buildChunk` keeps the score of its pair. -/
lemma buildChunk_ok_score {p : Doc × Score} {c : Chunk}
    (h : buildChunk p = Except.ok c) : c.similarity_score = p.2 := by
  rw [buildChunk] at h
  cases hi : p.1.id with
  | none => rw [hi] at h; simp [getKey, Except.bind] at h
  | some i =>
    rw [hi] at h
    cases hf : p.1.filePath with
    | none => rw [hf] at h; simp [getKey, Except.bind] at h
    | some f =>
      rw [hf] at h
      cases hci : p.1.chunkIndex with
      | none => rw [hci] at h; simp [getKey, Except.bind] at h
      | some ci =>
        rw [hci] at h
        cases hct : p.1.content with
        | none => rw [hct] at h; simp [getKey, Except.bind, Except.map] at h
        | some ct =>
          rw [hct] at h
          simp only [getKey, Except.bind, Except.map, Except.ok.injEq] at h
          rw [← h]

/-- The scores of a successfully built chunk list are the scores of the
scored pairs, in order. -/
lemma exList_buildChunk_scores {l : List (Doc × Score)} {r : List Chunk}
    (h : exList buildChunk l = Except.ok r) :
    r.map (fun c => c.similarity_score) = l.map (fun p => p.2) := by
  have h2 := exList_ok_forall₂ h
  clear h
  induction h2 with
  | nil => rfl
  | cons hab _ ih =>
    simp only [List.map_cons, List.cons.injEq]
    exact ⟨buildChunk_ok_score hab, ih⟩

/-- The sort comparator is transitive. -/
lemma pairLe_trans (a b c : Doc × Score) :
    pairLe a b → pairLe b c → pairLe a c := by
  simp only [pairLe, decide_eq_true_eq]
  intro h1 h2
  exact le_trans h2 h1

/-- The sort comparator is total. -/
lemma pairLe_total (a b : Doc × Score) : pairLe a b || pairLe b a := by
  simp only [pairLe, Bool.or_eq_true, decide_eq_true_eq]
  exact le_total _ _

/-- The ranked list is a permutation of the filtered similarity list. -/
lemma rankPairs_perm (sims : List (Doc × Score)) :
    List.Perm (rankPairs sims) sims :=
  List.mergeSort_perm sims pairLe

/-- The ranked list is sorted by non-increasing sort key. -/
lemma rankPairs_sorted (sims : List (Doc × Score)) :
    (rankPairs sims).Pairwise (fun a b => b.2.sKey ≤ a.2.sKey) := by
  have h := List.sorted_mergeSort pairLe_trans pairLe_total sims
  exact h.imp (fun hab => by simpa [pairLe] using hab)

/-- A score passing the threshold test is not NaN. -/
lemma Score.geQb_densq_ne {s : Score} {t : ℚ} (h : s.geQb t = true) :
    s.densq ≠ 0 := by
  have := (Bool.and_eq_true _ _).mp h
  simpa [beq_eq_false_iff_ne] using this.1

/-- A non-empty list is not `isEmpty`. -/
lemma isEmpty_false_of_ne_nil {α : Type} {l : List α} (h : l ≠ []) :
    l.isEmpty = false := by
  cases l with
  | nil => exact absurd rfl h
  | cons a as => rfl

/-- When the guard passes and the body succeeds, `find_relevant_chunks`
returns exactly the body result. -/
lemma find_eq_of_ok {enc : String → List ℚ} {ws : List Doc} {q : String}
    {k : ℕ} {t : ℚ} {out : List Chunk} (hne : ws ≠ [])
    (h : tryBody (enc q) ws k t = Except.ok out) :
    find_relevant_chunks (some enc) ws q k t = out := by
  rw [find_relevant_chunks]
  simp only [isEmpty_false_of_ne_nil hne, Bool.false_eq_true, if_false, h]

/-- When the guard passes and the body raises, `find_relevant_chunks`
returns the empty list: the `except` clause swallows the error. -/
lemma find_eq_nil_of_error {enc : String → List ℚ} {ws : List Doc}
    {q : String} {k : ℕ} {t : ℚ} (hne : ws ≠ [])
    (h : tryBody (enc q) ws k t = Except.error ()) :
    find_relevant_chunks (some enc) ws q k t = [] := by
  rw [find_relevant_chunks]
  simp only [isEmpty_false_of_ne_nil hne, Bool.false_eq_true, if_false, h]

/-- A pair of the truncated ranked list is a pair of the similarity list. -/
lemma mem_of_mem_take_rankPairs {sims : List (Doc × Score)} {k : ℕ}
    {p : Doc × Score} (hp : p ∈ (rankPairs sims).take k) : p ∈ sims :=
  (rankPairs_perm sims).mem_iff.mp (List.mem_of_mem_take hp)

/-- Claim C1: for every query and every non-empty corpus (with the record
fields the data model of the spec guarantees: all metadata present and all truthy
embeddings of the query dimensionality), `find_relevant_chunks` returns a
list of at most `min k (corpus size)` matches, ordered by non-increasing
semantic similarity score; it returns exactly `min k m` matches where `m` is
the number of records passing the threshold, never padding; and it is a
total function, so it never errors. -/
theorem claim_C1 (enc : String → List ℚ) (ws : List Doc) (q : String)
    (k : ℕ) (t : ℚ) (hne : ws ≠ [])
    (hdims : ∀ d ∈ ws, hasTruthyEmbedding d = true →
      (d.embedding.getD []).length = (enc q).length)
    (hmeta : ∀ d ∈ ws, docHasMeta d = true) :
    (find_relevant_chunks (some enc) ws q k t).length ≤ min k ws.length ∧
    (find_relevant_chunks (some enc) ws q k t).Pairwise
      (fun c1 c2 => c2.similarity_score.toReal ≤ c1.similarity_score.toReal) ∧
    ∃ sims, computeSims (enc q) t ws = Except.ok sims ∧
      (find_relevant_chunks (some enc) ws q k t).length = min k sims.length := by
  obtain ⟨sims, hsims⟩ := computeSims_isOk (enc q) t ws hdims
  have hmemsims := computeSims_mem_spec (enc q) t ws sims hsims
  obtain ⟨out, hout⟩ :=
    exList_isOk (f := buildChunk) (l := (rankPairs sims).take k)
      (fun p hp =>
        buildChunk_isOk (hmeta p.1 (hmemsims p (mem_of_mem_take_rankPairs hp)).1))
  have hfind : find_relevant_chunks (some enc) ws q k t = out :=
    find_eq_of_ok hne (by rw [tryBody, hsims]; simpa [Except.bind] using hout)
  have hlen_out : out.length = min k sims.length := by
    have h2 := (exList_ok_forall₂ hout).length_eq
    rw [← h2, List.length_take, rankPairs]
    rw [List.length_mergeSort]
  have hscores : out.map (fun c => c.similarity_score)
      = ((rankPairs sims).take k).map (fun p => p.2) :=
    exList_buildChunk_scores hout
  have hdq : ∀ c ∈ out, 0 ≤ c.similarity_score.densq := by
    intro c hc
    have hmem : c.similarity_score ∈ ((rankPairs sims).take k).map
        (fun p => p.2) := by
      rw [← hscores]
      exact List.mem_map_of_mem _ hc
    obtain ⟨p, hp, hps⟩ := List.mem_map.mp hmem
    obtain ⟨-, -, hcs, -⟩ := hmemsims p (mem_of_mem_take_rankPairs hp)
    rw [← hps, hcs]
    exact cosScore_densq_nonneg _ _
  refine ⟨?_, ?_, sims, hsims, by rw [hfind]; exact hlen_out⟩
  · rw [hfind, hlen_out]
    exact min_le_min (le_refl k) (computeSims_length (enc q) t ws sims hsims)
  · rw [hfind]
    have htop : (((rankPairs sims).take k).map (fun p => p.2)).Pairwise
        (fun s1 s2 => s2.sKey ≤ s1.sKey) := by
      rw [List.pairwise_map]
      exact (rankPairs_sorted sims).sublist (List.take_sublist k _)
    have htop' : (out.map (fun c => c.similarity_score)).Pairwise
        (fun s1 s2 => s2.sKey ≤ s1.sKey) := by
      rw [hscores]
      exact htop
    have hkey : out.Pairwise (fun c1 c2 =>
        c2.similarity_score.sKey ≤ c1.similarity_score.sKey) :=
      List.pairwise_map.mp htop'
    exact hkey.imp_of_mem (fun ha hb hab =>
      (Score.sKey_le_sKey_iff _ _ (hdq _ hb) (hdq _ ha)).mp hab)

/-! ### Concrete inputs used by witnesses and counterexamples -/

/-- A deterministic embedding collaborator producing the query vector. -/
def encEx : String → List ℚ := fun _ => [1, 0]

/-- A second collaborator implementation computing the same vectors. -/
def encEx2 : String → List ℚ := fun _ => [2 / 2, 0]

/-- A collaborator producing three-dimensional query vectors. -/
def encEx3 : String → List ℚ := fun _ => [1, 1, 1]

/-- A well-formed record whose embedding matches the query exactly. -/
def docA : Doc :=
  { id := some "a", filePath := some "fa", chunkIndex := some 0,
    content := some "ca", embedding := some [1, 0] }

/-- A well-formed record orthogonal to the query. -/
def docB : Doc :=
  { id := some "b", filePath := some "fb", chunkIndex := some 1,
    content := some "cb", embedding := some [0, 1] }

/-- A well-formed record whose similarity to the query differs from 1 by
less than one billionth. -/
def docNear : Doc :=
  { id := some "b", filePath := some "fb", chunkIndex := some 1,
    content := some "cb", embedding := some [100000, 1] }

/-- A well-formed record pointing away from the query: similarity −1. -/
def docNeg : Doc :=
  { id := some "n", filePath := some "fn", chunkIndex := some 2,
    content := some "cn", embedding := some [-1, 0] }

/-- A record missing every field, as parsed from the JSON object `{}`. -/
def docEmpty : Doc :=
  { id := none, filePath := none, chunkIndex := none, content := none,
    embedding := none }

/-- Witness for claim C1 at a concrete two-record corpus. -/
theorem claim_C1_witness :
    ([docA, docB] ≠ ([] : List Doc)) ∧
    (∀ d ∈ [docA, docB], hasTruthyEmbedding d = true →
      (d.embedding.getD []).length = (encEx "x").length) ∧
    (∀ d ∈ [docA, docB], docHasMeta d = true) ∧
    ((find_relevant_chunks (some encEx) [docA, docB] "x" 5 0).length ≤
        min 5 (List.length [docA, docB]) ∧
      (find_relevant_chunks (some encEx) [docA, docB] "x" 5 0).Pairwise
        (fun c1 c2 =>
          c2.similarity_score.toReal ≤ c1.similarity_score.toReal) ∧
      ∃ sims, computeSims (encEx "x") 0 [docA, docB] = Except.ok sims ∧
        (find_relevant_chunks (some encEx) [docA, docB] "x" 5 0).length =
          min 5 sims.length) :=
  ⟨by decide, by decide, by decide,
    claim_C1 encEx [docA, docB] "x" 5 0 (by decide) (by decide) (by decide)⟩

/-- Counterexample to claim C2 as stated: on the pair `[0]`, `[1]` the query
vector has zero norm, and `cosine_similarity` does not return the number 0 —
it performs the division with a zero denominator, whose float result is NaN
(represented by `densq = 0`); under threshold 0 a similarity of 0 would pass
the `>=` test, while the actual NaN result fails it. -/
theorem claim_C2_cex :
    cosine_similarity [(0 : ℚ)] [1] =
      Except.ok { num := 0, densq := 0 } ∧
    Score.isNaN { num := 0, densq := 0 } = true ∧
    Score.geQb { num := 0, densq := 0 } 0 = false ∧
    Score.geQb { num := 0, densq := 1 } 0 = true := by
  refine ⟨?_, by decide, by decide, ?_⟩
  · simp [cosine_similarity, dotQ]
  · simp [Score.geQb, Score.sKey]

/-- Claim C2 amended: for every pair of equal-length vectors in which either
vector has zero norm, `cosine_similarity` raises no division error, but the
value it returns is NaN rather than 0, and it therefore fails every
downstream `>=`-threshold comparison. -/
theorem claim_C2 (a b : List ℚ) (hlen : a.length = b.length)
    (hz : dotQ a a = 0 ∨ dotQ b b = 0) :
    ∃ s, cosine_similarity a b = Except.ok s ∧ s.isNaN = true ∧
      ∀ t : ℚ, s.geQb t = false := by
  refine ⟨cosScore a b, cosine_similarity_ok hlen, ?_, ?_⟩
  · have hd : (cosScore a b).densq = 0 := by
      rcases hz with h | h
      · simp [cosScore, h]
      · simp [cosScore, h]
    simp [Score.isNaN, hd]
  · intro t
    have hd : (cosScore a b).densq = 0 := by
      rcases hz with h | h
      · simp [cosScore, h]
      · simp [cosScore, h]
    simp [Score.geQb, hd]

/-- Counterexample to claim C3 as stated: with a three-dimensional query
vector against a non-empty corpus of two-dimensional embeddings, the body of
`find_relevant_chunks` does raise internally (`numpy.dot` — `tryBody` is an
error), but the `except` clause converts the failure into the empty result:
the caller sees `[]` and no `DimensionMismatch` failure is surfaced. -/
theorem claim_C3_cex :
    find_relevant_chunks (some encEx3) [docA] "x" 5 0 = [] ∧
    tryBody (encEx3 "x") [docA] 5 0 = Except.error () :=
  ⟨rfl, rfl⟩

/-- The similarity loop raises as soon as some record with a truthy
embedding disagrees with the query dimensionality. -/
lemma computeSims_error_of_mismatch (qe : List ℚ) (t : ℚ) :
    ∀ ws : List Doc,
      (∃ d ∈ ws, hasTruthyEmbedding d = true ∧
        (d.embedding.getD []).length ≠ qe.length) →
      computeSims qe t ws = Except.error () := by
  intro ws
  induction ws with
  | nil => rintro ⟨d, hd, -⟩; exact absurd hd (List.not_mem_nil d)
  | cons d rest ih =>
    rintro ⟨d', hd', ht', hlen'⟩
    rcases List.mem_cons.mp hd' with rfl | hmem
    · rw [computeSims, if_pos ht']
      have : cosine_similarity qe (d'.embedding.getD []) = Except.error () := by
        rw [cosine_similarity, if_neg (fun h => hlen' h.symm)]
      rw [this]
      rfl
    · by_cases ht : hasTruthyEmbedding d = true
      · rw [computeSims, if_pos ht]
        cases hc : cosine_similarity qe (d.embedding.getD []) with
        | error e => rfl
        | ok s =>
          rw [ih ⟨d', hmem, ht', hlen'⟩]
          rfl
      · rw [computeSims, if_neg ht]
        exact ih ⟨d', hmem, ht', hlen'⟩

/-- Claim C3 amended: a query whose dimensionality differs from that of some
record with a truthy embedding makes the body of `find_relevant_chunks`
raise internally, but the error is caught and the caller receives the empty
list — the mismatch is converted into an empty result, not surfaced as a
hard failure. -/
theorem claim_C3 (enc : String → List ℚ) (ws : List Doc) (q : String)
    (k : ℕ) (t : ℚ) (hne : ws ≠ [])
    (hbad : ∃ d ∈ ws, hasTruthyEmbedding d = true ∧
      (d.embedding.getD []).length ≠ (enc q).length) :
    tryBody (enc q) ws k t = Except.error () ∧
    find_relevant_chunks (some enc) ws q k t = [] := by
  have herr : tryBody (enc q) ws k t = Except.error () := by
    rw [tryBody, computeSims_error_of_mismatch (enc q) t ws hbad]
    rfl
  exact ⟨herr, find_eq_nil_of_error hne herr⟩

/-- Witness for the amended claim C3 at a concrete mismatched input. -/
theorem claim_C3_witness :
    ([docA] ≠ ([] : List Doc)) ∧
    (∃ d ∈ [docA], hasTruthyEmbedding d = true ∧
      (d.embedding.getD []).length ≠ (encEx3 "y").length) ∧
    (tryBody (encEx3 "y") [docA] 3 0 = Except.error () ∧
      find_relevant_chunks (some encEx3) [docA] "y" 3 0 = []) :=
  ⟨by decide, by decide, claim_C3 encEx3 [docA] "y" 3 0 (by decide) (by decide)⟩

/-- Claim C6: for every query, every truncation bound and every threshold,
if the embedding model is not loaded or the corpus is empty, then both
`find_relevant_chunks` and `retrieve_context` return the empty sequence, and
no error is raised (`retrieve_context` succeeds with `Except.ok`). -/
theorem claim_C6 (enc : String → List ℚ) (ws : List Doc) (q : String)
    (k : ℕ) (t : ℚ) (tk : ℕ) :
    find_relevant_chunks none ws q k t = [] ∧
    find_relevant_chunks (some enc) [] q k t = [] ∧
    retrieve_context none ws q tk = Except.ok [] ∧
    retrieve_context (some enc) [] q tk = Except.ok [] :=
  ⟨rfl, rfl, rfl, rfl⟩

/-- Claim C8: `find_relevant_chunks` is a pure function of the encoded query
vector, the corpus, the truncation bound and the threshold: two calls whose
(possibly different) deterministic embedding collaborators produce the same
vector for their queries return identical output, including order.  In
particular two runs on identical inputs coincide. -/
theorem claim_C8 (enc1 enc2 : String → List ℚ) (ws : List Doc)
    (q1 q2 : String) (k : ℕ) (t : ℚ) (h : enc1 q1 = enc2 q2) :
    find_relevant_chunks (some enc1) ws q1 k t =
      find_relevant_chunks (some enc2) ws q2 k t := by
  simp only [find_relevant_chunks, h]

/-- Witness for claim C8: two distinct collaborator implementations that
agree on the query vector produce the same ranking. -/
theorem claim_C8_witness :
    encEx "x" = encEx2 "x" ∧
    find_relevant_chunks (some encEx) [docA, docB] "x" 5 0 =
      find_relevant_chunks (some encEx2) [docA, docB] "x" 5 0 := by
  have h : encEx "x" = encEx2 "x" := by
    show [(1 : ℚ), 0] = [2 / 2, 0]
    norm_num
  exact ⟨h, claim_C8 encEx encEx2 [docA, docB] "x" "x" 5 0 h⟩

/-- Claim C9: `find_relevant_chunks` is a total function into lists — no
exception reaches its caller.  Every call either returns the successful
result of the `try:` body or the empty list, and whenever the body raises
(for any corpus contents, including records with missing or empty embedding
fields or mismatched dimensionalities) the error is mapped to `[]`. -/
theorem claim_C9 (enc : String → List ℚ) (ws : List Doc) (q : String)
    (k : ℕ) (t : ℚ) :
    (find_relevant_chunks (some enc) ws q k t = [] ∨
      tryBody (enc q) ws k t =
        Except.ok (find_relevant_chunks (some enc) ws q k t)) ∧
    (∀ e : Unit, tryBody (enc q) ws k t = Except.error e →
      find_relevant_chunks (some enc) ws q k t = []) := by
  by_cases hws : ws = []
  · subst hws
    exact ⟨Or.inl rfl, fun e _ => rfl⟩
  · cases htb : tryBody (enc q) ws k t with
    | ok l =>
      refine ⟨Or.inr ?_, fun e he => ?_⟩
      · rw [find_eq_of_ok hws htb]
      · exact Except.noConfusion he
    | error e =>
      cases e
      exact ⟨Or.inl (find_eq_nil_of_error hws htb),
        fun e' _ => find_eq_nil_of_error hws htb⟩

/-- Witness for claim C9: at a corpus whose only record mismatches the query
dimensionality, the body raises and the caller still receives a list. -/
theorem claim_C9_witness :
    tryBody (encEx3 "z") [docA] 2 0 = Except.error () ∧
    find_relevant_chunks (some encEx3) [docA] "z" 2 0 = [] :=
  ⟨rfl, (claim_C9 encEx3 [docA] "z" 2 0).2 () rfl⟩

/-- Inversion of a successful `try:` body. -/
lemma tryBody_ok_inv {qe : List ℚ} {ws : List Doc} {k : ℕ} {t : ℚ}
    {out : List Chunk} (h : tryBody qe ws k t = Except.ok out) :
    ∃ sims, computeSims qe t ws = Except.ok sims ∧
      exList buildChunk ((rankPairs sims).take k) = Except.ok out := by
  rw [tryBody] at h
  cases hc : computeSims qe t ws with
  | error e => rw [hc] at h; simp [Except.bind] at h
  | ok sims =>
    rw [hc] at h
    exact ⟨sims, rfl, by simpa [Except.bind] using h⟩

/-- The executable threshold test fails exactly when the score is NaN or the
semantic value is below the threshold. -/
lemma Score.geQb_eq_false_iff (s : Score) (t : ℚ) (h : 0 ≤ s.densq) :
    s.geQb t = false ↔ (s.densq = 0 ∨ s.toReal < (t : ℝ)) := by
  have hiff := Score.geQb_eq_true_iff s t h
  constructor
  · intro hf
    have hnt : ¬ (s.densq ≠ 0 ∧ (t : ℝ) ≤ s.toReal) := by
      rw [← hiff, hf]
      simp
    by_cases hd : s.densq = 0
    · exact Or.inl hd
    · refine Or.inr ?_
      by_contra hlt
      exact hnt ⟨hd, not_lt.mp hlt⟩
  · intro hor
    cases hgB : s.geQb t with
    | false => rfl
    | true =>
      obtain ⟨hne, hle⟩ := hiff.mp hgB
      rcases hor with hd | hlt
      · exact absurd hd hne
      · exact absurd hle (not_le.mpr hlt)

/-- When every record with a truthy embedding fails the threshold test, the
similarity loop returns the empty list (or raises on a dimension
mismatch encountered before the filter). -/
lemma computeSims_all_fail (qe : List ℚ) (t : ℚ) :
    ∀ ws : List Doc,
      (∀ d ∈ ws, hasTruthyEmbedding d = true →
        (cosScore qe (d.embedding.getD [])).geQb t = false) →
      computeSims qe t ws = Except.ok [] ∨
        computeSims qe t ws = Except.error () := by
  intro ws
  induction ws with
  | nil => intro _; exact Or.inl rfl
  | cons d rest ih =>
    intro h
    by_cases ht : hasTruthyEmbedding d = true
    · rw [computeSims, if_pos ht]
      by_cases hlen : qe.length = (d.embedding.getD []).length
      · rw [cosine_similarity_ok hlen]
        have hg := h d (List.mem_cons_self _ _) ht
        rcases ih (fun d' hd' => h d' (List.mem_cons_of_mem _ hd')) with
          hok | herr
        · rw [hok]
          exact Or.inl (by simp [Except.bind, Except.map, hg])
        · rw [herr]
          exact Or.inr rfl
      · have hcerr : cosine_similarity qe (d.embedding.getD []) =
            Except.error () := by
          rw [cosine_similarity, if_neg hlen]
        rw [hcerr]
        exact Or.inr rfl
    · rw [computeSims, if_neg ht]
      exact ih (fun d' hd' => h d' (List.mem_cons_of_mem _ hd'))

/-- Claim C4: every chunk returned by `find_relevant_chunks` has a non-NaN
similarity whose semantic value is at least the threshold; and when the
threshold exceeds the similarity of every record with a truthy embedding
(each pair is NaN or strictly below the threshold), the result is empty. -/
theorem claim_C4 (enc : String → List ℚ) (ws : List Doc) (q : String)
    (k : ℕ) (t : ℚ) :
    (∀ c ∈ find_relevant_chunks (some enc) ws q k t,
      c.similarity_score.densq ≠ 0 ∧
        (t : ℝ) ≤ c.similarity_score.toReal) ∧
    ((∀ d ∈ ws, hasTruthyEmbedding d = true →
        ((cosScore (enc q) (d.embedding.getD [])).densq = 0 ∨
          (cosScore (enc q) (d.embedding.getD [])).toReal < (t : ℝ))) →
      find_relevant_chunks (some enc) ws q k t = []) := by
  constructor
  · intro c hc
    by_cases hws : ws = []
    · subst hws
      exact absurd hc (List.not_mem_nil c)
    · cases htb : tryBody (enc q) ws k t with
      | error e =>
        cases e
        rw [find_eq_nil_of_error hws htb] at hc
        exact absurd hc (List.not_mem_nil c)
      | ok l =>
        rw [find_eq_of_ok hws htb] at hc
        obtain ⟨sims, hsims, hout⟩ := tryBody_ok_inv htb
        have hscores := exList_buildChunk_scores hout
        have hmem : c.similarity_score ∈
            ((rankPairs sims).take k).map (fun p => p.2) := by
          rw [← hscores]
          exact List.mem_map_of_mem _ hc
        obtain ⟨p, hp, hps⟩ := List.mem_map.mp hmem
        obtain ⟨-, -, hcs, hg⟩ :=
          computeSims_mem_spec (enc q) t ws sims hsims p
            (mem_of_mem_take_rankPairs hp)
        have hdq : 0 ≤ p.2.densq := by
          rw [hcs]
          exact cosScore_densq_nonneg _ _
        rw [← hps]
        exact (Score.geQb_eq_true_iff p.2 t hdq).mp hg
  · intro hall
    by_cases hws : ws = []
    · subst hws
      rfl
    · have hfail : ∀ d ∈ ws, hasTruthyEmbedding d = true →
          (cosScore (enc q) (d.embedding.getD [])).geQb t = false :=
        fun d hd ht =>
          (Score.geQb_eq_false_iff _ t (cosScore_densq_nonneg _ _)).mpr
            (hall d hd ht)
      rcases computeSims_all_fail (enc q) t ws hfail with hok | herr
      · apply find_eq_of_ok hws
        rw [tryBody, hok]
        simp [Except.bind, rankPairs, exList]
      · exact find_eq_nil_of_error hws (by rw [tryBody, herr]; rfl)

/-- Witness for claim C4: with threshold 2 every cosine similarity is
strictly below the threshold, and the concrete result is empty. -/
theorem claim_C4_witness :
    (∀ d ∈ [docA], hasTruthyEmbedding d = true →
      ((cosScore (encEx "x") (d.embedding.getD [])).densq = 0 ∨
        (cosScore (encEx "x") (d.embedding.getD [])).toReal < ((2 : ℚ) : ℝ))) ∧
    find_relevant_chunks (some encEx) [docA] "x" 5 2 = [] := by
  have hyp : ∀ d ∈ [docA], hasTruthyEmbedding d = true →
      ((cosScore (encEx "x") (d.embedding.getD [])).densq = 0 ∨
        (cosScore (encEx "x") (d.embedding.getD [])).toReal < ((2 : ℚ) : ℝ)) := by
    intro d hd _
    have hdA : d = docA := by simpa using hd
    subst hdA
    refine Or.inr ?_
    have h1 : cosScore (encEx "x") (docA.embedding.getD []) =
        { num := 1, densq := 1 } := by
      show cosScore [(1 : ℚ), 0] [1, 0] = { num := 1, densq := 1 }
      simp [cosScore, dotQ]
    rw [h1]
    show ((1 : ℚ) : ℝ) / Real.sqrt ((1 : ℚ) : ℝ) < ((2 : ℚ) : ℝ)
    rw [Rat.cast_one]
    rw [Real.sqrt_one]
    norm_num
  exact ⟨hyp, (claim_C4 encEx [docA] "x" 5 2).2 hyp⟩

/-- A successful pointwise relation yields, for every element of the image
list, a source element it came from. -/
lemma forall₂_mem_right {α β : Type} {R : α → β → Prop} :
    ∀ {l : List α} {r : List β}, List.Forall₂ R l r →
      ∀ b ∈ r, ∃ a ∈ l, R a b := by
  intro l r h
  induction h with
  | nil => intro b hb; exact absurd hb (List.not_mem_nil b)
  | cons hab htail ih =>
    intro b hb
    rcases List.mem_cons.mp hb with rfl | hb2
    · exact ⟨_, List.mem_cons_self _ _, hab⟩
    · obtain ⟨a, ha, hr⟩ := ih b hb2
      exact ⟨a, List.mem_cons_of_mem _ ha, hr⟩

/-- `buildCtx` succeeds on records carrying the three context keys. -/
lemma buildCtx_isOk {p : Doc × Score} (h2 : p.1.filePath.isSome = true)
    (h3 : p.1.chunkIndex.isSome = true) (h4 : p.1.content.isSome = true) :
    ∃ c, buildCtx p = Except.ok c := by
  obtain ⟨f, hf⟩ := Option.isSome_iff_exists.mp h2
  obtain ⟨ci, hci⟩ := Option.isSome_iff_exists.mp h3
  obtain ⟨ct, hct⟩ := Option.isSome_iff_exists.mp h4
  exact ⟨_, by rw [buildCtx, hf, hci, hct]; rfl⟩

/-- Claim C10: `retrieve_context` applies no similarity threshold.  Whenever
the embedding model is loaded and the corpus is non-empty (and well-formed:
every record has an embedding of the query dimensionality and the three
context metadata keys), it succeeds and returns exactly
`min top_k (corpus size)` matches, for every query — however low or negative
the similarities are. -/
theorem claim_C10 (enc : String → List ℚ) (ws : List Doc) (q : String)
    (tk : ℕ) (hne : ws ≠ [])
    (hemb : ∀ d ∈ ws, ∃ e, d.embedding = some e ∧
      e.length = (enc q).length)
    (hmeta : ∀ d ∈ ws, d.filePath.isSome = true ∧
      d.chunkIndex.isSome = true ∧ d.content.isSome = true) :
    ∃ l, retrieve_context (some enc) ws q tk = Except.ok l ∧
      l.length = min tk ws.length := by
  obtain ⟨embs, hembs⟩ :=
    exList_isOk (f := fun d => getKey d.embedding) (l := ws)
      (fun d hd => by
        obtain ⟨e, he, -⟩ := hemb d hd
        exact ⟨e, by simp only []; rw [he]; rfl⟩)
  have hf2 := exList_ok_forall₂ hembs
  have hlen_embs : embs.length = ws.length := hf2.length_eq.symm
  have hlens : ∀ e ∈ embs, e.length = (enc q).length := by
    intro e he
    obtain ⟨d, hd, hr⟩ := forall₂_mem_right hf2 e he
    obtain ⟨e', he', hlen'⟩ := hemb d hd
    rw [he'] at hr
    have hee : e' = e := by simpa [getKey] using hr
    rw [← hee]
    exact hlen'
  have hembs_ne : embs ≠ [] := by
    intro h0
    rw [h0] at hlen_embs
    exact hne (List.length_eq_zero.mp hlen_embs.symm)
  have hhead : (embs.headD []).length = (enc q).length := by
    cases embs with
    | nil => exact absurd rfl hembs_ne
    | cons e rest => exact hlens e (List.mem_cons_self _ _)
  have hall : embs.all (fun e => decide (e.length = (embs.headD []).length))
      = true := by
    rw [List.all_eq_true]
    intro e he
    rw [decide_eq_true_eq, hlens e he, hhead]
  set scored := ws.zip (embs.map fun e => cosScore (enc q) e) with hscored
  have hlen_scored : scored.length = ws.length := by
    rw [hscored, List.length_zip, List.length_map, hlen_embs, min_self]
  set top := (scored.mergeSort pairLe).take (min tk ws.length) with htop
  obtain ⟨out, hout⟩ :=
    exList_isOk (f := buildCtx) (l := top)
      (fun p hp => by
        have hpm : p ∈ scored :=
          (List.mergeSort_perm scored pairLe).mem_iff.mp
            (List.mem_of_mem_take hp)
        have hpw : p.1 ∈ ws := (List.of_mem_zip hpm).1
        obtain ⟨m2, m3, m4⟩ := hmeta p.1 hpw
        exact buildCtx_isOk m2 m3 m4)
  refine ⟨out, ?_, ?_⟩
  · rw [retrieve_context]
    simp only [isEmpty_false_of_ne_nil hne, Bool.false_eq_true, if_false,
      hembs, Except.bind]
    rw [if_pos hall, if_pos hhead.symm]
    exact hout
  · have hlen_out : out.length = top.length :=
      (exList_ok_forall₂ hout).length_eq.symm
    rw [hlen_out, htop, List.length_take, List.length_mergeSort,
      hlen_scored]
    exact Nat.min_eq_left (Nat.min_le_right tk ws.length)

/-- Witness for claim C10: a one-record corpus pointing away from the query
(similarity −1) is still returned, as `min 3 1 = 1` match. -/
theorem claim_C10_witness :
    ([docNeg] ≠ ([] : List Doc)) ∧
    (∀ d ∈ [docNeg], ∃ e, d.embedding = some e ∧
      e.length = (encEx "x").length) ∧
    (∀ d ∈ [docNeg], d.filePath.isSome = true ∧
      d.chunkIndex.isSome = true ∧ d.content.isSome = true) ∧
    (∃ l, retrieve_context (some encEx) [docNeg] "x" 3 = Except.ok l ∧
      l.length = min 3 (List.length [docNeg])) :=
  ⟨by decide, by decide, by decide,
    claim_C10 encEx [docNeg] "x" 3 (by decide) (by decide) (by decide)⟩

/-- Counterexample to claim C7 as stated: the loader performs no per-record
validation.  A record parsed from the JSON object with no fields at all
(all five required fields missing) is kept in the corpus, not dropped. -/
theorem claim_C7_cex :
    load_workspace_embeddings (some [docEmpty]) = [docEmpty] ∧
    docHasMeta docEmpty = false ∧
    docEmpty.embedding = none :=
  ⟨rfl, by decide, rfl⟩

/-- Claim C7 amended: the corpus load does fail softly — a missing source or
a parse failure yields the empty corpus and no crash — but it performs no
validation at all: whatever list of records the parse produces is stored
unchanged, malformed records included (their defects surface only inside
later retrieval calls, whose errors are caught). -/
theorem claim_C7 (l : List Doc) :
    load_workspace_embeddings none = [] ∧
    load_workspace_embeddings (some l) = l :=
  ⟨rfl, rfl⟩

/-- The chunk a well-formed scored pair builds to (with defaults that are
never used on well-formed records). -/
def chunkOf (p : Doc × Score) : Chunk :=
  { id := p.1.id.getD "", filePath := p.1.filePath.getD "",
    chunkIndex := p.1.chunkIndex.getD 0, content := p.1.content.getD "",
    similarity_score := p.2 }

/-- A successful `buildChunk` produces exactly `chunkOf`. -/
lemma buildChunk_ok_eq {p : Doc × Score} {c : Chunk}
    (h : buildChunk p = Except.ok c) : c = chunkOf p := by
  rw [buildChunk] at h
  cases hi : p.1.id with
  | none => rw [hi] at h; simp [getKey, Except.bind] at h
  | some i =>
    rw [hi] at h
    cases hf : p.1.filePath with
    | none => rw [hf] at h; simp [getKey, Except.bind] at h
    | some f =>
      rw [hf] at h
      cases hci : p.1.chunkIndex with
      | none => rw [hci] at h; simp [getKey, Except.bind] at h
      | some ci =>
        rw [hci] at h
        cases hct : p.1.content with
        | none => rw [hct] at h; simp [getKey, Except.bind, Except.map] at h
        | some ct =>
          simp only [getKey, Except.bind, Except.map, Except.ok.injEq,
            hct] at h
          rw [← h, chunkOf, hi, hf, hci, hct]
          rfl

/-- A successful chunk-building pass is a `map` of `chunkOf`. -/
lemma exList_buildChunk_map {l : List (Doc × Score)} {r : List Chunk}
    (h : exList buildChunk l = Except.ok r) : r = l.map chunkOf := by
  have h2 := exList_ok_forall₂ h
  clear h
  induction h2 with
  | nil => rfl
  | cons hab _ ih =>
    simp only [List.map_cons, List.cons.injEq]
    exact ⟨buildChunk_ok_eq hab, ih⟩

/-- Stability of the embedded sort: restricted to any fixed sort key, the
ranked list is exactly the filtered similarity list in its original
(corpus insertion) order. -/
lemma rankPairs_filter_key (sims : List (Doc × Score)) (v : ℚ) :
    (rankPairs sims).filter (fun p => p.2.sKey == v) =
      sims.filter (fun p => p.2.sKey == v) := by
  set Q : Doc × Score → Bool := fun p => p.2.sKey == v with hQ
  have hkeys : ∀ p ∈ sims.filter Q, p.2.sKey = v := by
    intro p hp
    have := (List.mem_filter.mp hp).2
    rwa [hQ, beq_iff_eq] at this
  have hF_pair : (sims.filter Q).Pairwise (fun a b => pairLe a b = true) := by
    apply List.pairwise_of_forall_mem_list
    intro a ha b hb
    rw [pairLe, decide_eq_true_eq, hkeys a ha, hkeys b hb]
  have hsub2 : List.Sublist (sims.filter Q) (sims.mergeSort pairLe) :=
    List.sublist_mergeSort pairLe_trans pairLe_total hF_pair
      (List.filter_sublist sims)
  have hsub3 : List.Sublist (sims.filter Q)
      ((sims.mergeSort pairLe).filter Q) := by
    have hs := hsub2.filter Q
    rwa [List.filter_eq_self.mpr (fun a ha => (List.mem_filter.mp ha).2)]
      at hs
  have hperm : List.Perm ((sims.mergeSort pairLe).filter Q)
      (sims.filter Q) := (List.mergeSort_perm sims pairLe).filter Q
  rw [rankPairs]
  exact (hsub3.eq_of_length hperm.length_eq.symm).symm

/-- Claim C5 amended: ties are broken by exact score equality, preserving
corpus insertion order.  For every sort-key value `v`, the ranked pair list
restricted to key `v` is the corpus-ordered filtered list restricted to key
`v`, and the chunks of key `v` in the final output are a prefix of the
corpus-ordered chunks of key `v` that pass the threshold (truncation only
removes a suffix). -/
theorem claim_C5 (enc : String → List ℚ) (ws : List Doc) (q : String)
    (k : ℕ) (t : ℚ) (v : ℚ) (hne : ws ≠ [])
    (hdims : ∀ d ∈ ws, hasTruthyEmbedding d = true →
      (d.embedding.getD []).length = (enc q).length)
    (hmeta : ∀ d ∈ ws, docHasMeta d = true) :
    ∃ sims allChunks,
      computeSims (enc q) t ws = Except.ok sims ∧
      exList buildChunk sims = Except.ok allChunks ∧
      (rankPairs sims).filter (fun p => p.2.sKey == v) =
        sims.filter (fun p => p.2.sKey == v) ∧
      ∃ rest, (find_relevant_chunks (some enc) ws q k t).filter
          (fun c => c.similarity_score.sKey == v) ++ rest =
        allChunks.filter (fun c => c.similarity_score.sKey == v) := by
  obtain ⟨sims, hsims⟩ := computeSims_isOk (enc q) t ws hdims
  have hmemsims := computeSims_mem_spec (enc q) t ws sims hsims
  obtain ⟨allChunks, hall⟩ :=
    exList_isOk (f := buildChunk) (l := sims)
      (fun p hp => buildChunk_isOk (hmeta p.1 (hmemsims p hp).1))
  obtain ⟨out, hout⟩ :=
    exList_isOk (f := buildChunk) (l := (rankPairs sims).take k)
      (fun p hp =>
        buildChunk_isOk (hmeta p.1 (hmemsims p (mem_of_mem_take_rankPairs hp)).1))
  have hfind : find_relevant_chunks (some enc) ws q k t = out :=
    find_eq_of_ok hne (by rw [tryBody, hsims]; simpa [Except.bind] using hout)
  refine ⟨sims, allChunks, hsims, hall, rankPairs_filter_key sims v, ?_⟩
  have hall_map : allChunks = sims.map chunkOf := exList_buildChunk_map hall
  have hout_map : out = ((rankPairs sims).take k).map chunkOf :=
    exList_buildChunk_map hout
  refine ⟨(((rankPairs sims).drop k).filter
      (fun p => p.2.sKey == v)).map chunkOf, ?_⟩
  rw [hfind, hout_map, hall_map]
  rw [List.filter_map, List.filter_map]
  have hcomp : ((fun c : Chunk => c.similarity_score.sKey == v) ∘ chunkOf)
      = (fun p : Doc × Score => p.2.sKey == v) := rfl
  rw [hcomp, ← List.map_append, ← List.filter_append,
    List.take_append_drop, rankPairs_filter_key sims v]

/-- Witness for the amended claim C5: a two-record corpus with exactly tied
scores keeps corpus order in the ranked output. -/
theorem claim_C5_witness :
    ([docA, docB] ≠ ([] : List Doc)) ∧
    (∀ d ∈ [docA, docB], hasTruthyEmbedding d = true →
      (d.embedding.getD []).length = (encEx "x").length) ∧
    (∀ d ∈ [docA, docB], docHasMeta d = true) ∧
    (∃ sims allChunks,
      computeSims (encEx "x") 0 [docA, docB] = Except.ok sims ∧
      exList buildChunk sims = Except.ok allChunks ∧
      (rankPairs sims).filter (fun p => p.2.sKey == (1 : ℚ)) =
        sims.filter (fun p => p.2.sKey == (1 : ℚ)) ∧
      ∃ rest, (find_relevant_chunks (some encEx) [docA, docB] "x" 5 0).filter
          (fun c => c.similarity_score.sKey == (1 : ℚ)) ++ rest =
        allChunks.filter (fun c => c.similarity_score.sKey == (1 : ℚ))) :=
  ⟨by decide, by decide, by decide,
    claim_C5 encEx [docA, docB] "x" 5 0 1 (by decide) (by decide) (by decide)⟩

/-- Witness for the amended claim C2 at the concrete pair `[0]`, `[1]`. -/
theorem claim_C2_witness :
    ([(0 : ℚ)].length = [(1 : ℚ)].length) ∧
    (dotQ [(0 : ℚ)] [(0 : ℚ)] = 0 ∨ dotQ [(1 : ℚ)] [(1 : ℚ)] = 0) ∧
    (∃ s, cosine_similarity [(0 : ℚ)] [(1 : ℚ)] = Except.ok s ∧
      s.isNaN = true ∧ ∀ t : ℚ, s.geQb t = false) :=
  ⟨by decide, by simp [dotQ], claim_C2 [0] [1] (by decide) (by simp [dotQ])⟩

/-- Sorting a two-element list reduces to one comparison. -/
lemma mergeSort_pair {α : Type} (le : α → α → Bool) (a b : α) :
    [a, b].mergeSort le = if le a b then [a, b] else [b, a] := by
  rw [List.mergeSort]
  simp [List.splitInTwo, List.splitAt, List.splitAt.go, List.merge]

/-- Counterexample to claim C5 as stated: no 1e-9 epsilon is applied when
comparing scores.  In the corpus `[docNear, docA]` the record `docNear`
(id "b") comes first and its similarity to the query differs from that of
`docA` (id "a", similarity exactly 1) by less than one billionth — the two
scores are "equal within epsilon 1e-9" — yet the ranking output is
`["a", "b"]`: the corpus-later record appears first, because the sort
compares the exact scores with no tolerance. -/
theorem claim_C5_cex :
    computeSims (encEx "x") 0 [docNear, docA] =
      Except.ok [(docNear, { num := 100000, densq := 10000000001 }),
        (docA, { num := 1, densq := 1 })] ∧
    [docNear, docA].map (fun d => d.id) = [some "b", some "a"] ∧
    (find_relevant_chunks (some encEx) [docNear, docA] "x" 5 0).map
      (fun c => c.id) = ["a", "b"] ∧
    |Score.toReal { num := 100000, densq := 10000000001 } -
        Score.toReal { num := 1, densq := 1 }| < 1 / 1000000000 := by
  have h1 : computeSims (encEx "x") 0 [docNear, docA] =
      Except.ok [(docNear, { num := 100000, densq := 10000000001 }),
        (docA, { num := 1, densq := 1 })] := by
    norm_num [computeSims, hasTruthyEmbedding, encEx, docNear, docA,
      cosine_similarity, dotQ, Score.geQb, Score.sKey, Except.bind,
      Except.map]
  have h2 : rankPairs [(docNear, { num := 100000, densq := 10000000001 }),
        (docA, { num := 1, densq := 1 })] =
      [(docA, { num := 1, densq := 1 }),
        (docNear, { num := 100000, densq := 10000000001 })] := by
    rw [rankPairs, mergeSort_pair]
    have hpl : pairLe (docNear, { num := 100000, densq := 10000000001 })
        (docA, { num := 1, densq := 1 }) = false := by
      norm_num [pairLe, Score.sKey]
    rw [hpl]
    rfl
  have hfind : find_relevant_chunks (some encEx) [docNear, docA] "x" 5 0 =
      [{ id := "a", filePath := "fa", chunkIndex := 0, content := "ca",
          similarity_score := { num := 1, densq := 1 } },
        { id := "b", filePath := "fb", chunkIndex := 1, content := "cb",
          similarity_score := { num := 100000, densq := 10000000001 } }] := by
    apply find_eq_of_ok (by decide)
    rw [tryBody, h1]
    show exList buildChunk ((rankPairs _).take 5) = _
    rw [h2]
    rfl
  refine ⟨h1, rfl, by rw [hfind]; rfl, ?_⟩
  have hc1 : Score.toReal { num := 1, densq := 1 } = 1 := by
    rw [Score.toReal]
    norm_num
  have hc2 : Score.toReal { num := 100000, densq := 10000000001 } =
      100000 / Real.sqrt 10000000001 := by
    rw [Score.toReal]
    norm_num
  rw [hc1, hc2]
  set r := Real.sqrt (10000000001 : ℝ) with hr
  have hrpos : (0 : ℝ) < r := Real.sqrt_pos.mpr (by norm_num)
  have hlb : (100000 : ℝ) ≤ r := by
    rw [hr]
    have h100 : (100000 : ℝ) = Real.sqrt (100000 ^ 2) :=
      (Real.sqrt_sq (by norm_num)).symm
    rw [h100]
    apply Real.sqrt_le_sqrt
    norm_num
  have hub : r ≤ 100000 + 1 / 100000 := by
    rw [hr]
    have hsq : Real.sqrt ((100000 + 1 / 100000) ^ 2) =
        100000 + 1 / 100000 := Real.sqrt_sq (by norm_num)
    rw [← hsq]
    apply Real.sqrt_le_sqrt
    norm_num
  have hXle : (100000 : ℝ) / r ≤ 1 := by
    rw [div_le_one hrpos]
    exact hlb
  have heq : (100000 : ℝ) / r - 1 = -((r - 100000) / r) := by
    field_simp
  have hX2 : (r - 100000) / r < 1 / 1000000000 := by
    rw [div_lt_iff₀ hrpos]
    nlinarith [hlb, hub]
  have hX0 : (0 : ℝ) ≤ (r - 100000) / r :=
    div_nonneg (by linarith) (le_of_lt hrpos)
  rw [heq, abs_neg, abs_of_nonneg hX0]
  exact hX2
